import Mathlib

/-!
Verification of the SyzGPT `syz-execprog` harness (`execprog.go`).

The definitions below are a shallow embedding of the harness code:
the retry loop of `Context.execute`, the program loader `loadPrograms`,
the coverage dumper `Context.dumpCoverage` / `Context.dumpCallCoverage`,
the coverage-record map (`setCoverRecord` / `getCoverRecord` and the
recording branch of `dumpCoverage`), the report writer `saveToFile`,
the shared cursor `Context.getProgramIndex`, the worker loop
`Context.run`, and the two-phase pool structure of `main`.

File I/O is abstracted as a list of (name, content) artifacts whose
writes succeed; the external symbol-restoration interface
(`cover.RestorePC`) is an opaque parameter `restore : Nat → Nat`.
-/

namespace Execprog

/-! ### Hexadecimal formatting, as produced by Go's `fmt.Sprintf("0x%x", n)`

`hexCore` mirrors the fuel-based digit loop of a standard unsigned
formatter: lowercase digits, most significant first, `0` printed as "0".
-/

/-- Lowercase hexadecimal digit character for `d < 16`. -/
def hexDigitChar (d : Nat) : Char :=
  if d < 10 then Char.ofNat (48 + d) else Char.ofNat (87 + d)

/-- Fuel-based digit accumulation: prepends the hex digits of `n`
(most significant first) to `acc`.  Called with fuel `n + 1`, which is
always sufficient. -/
def hexCore : Nat → Nat → List Char → List Char
  | 0, _, acc => acc
  | fuel + 1, n, acc =>
    let d := hexDigitChar (n % 16)
    if n < 16 then d :: acc else hexCore fuel (n / 16) (d :: acc)

/-- The string `fmt.Sprintf("0x%x", n)` for a nonnegative integer. -/
def hexStr (n : Nat) : String :=
  "0x" ++ String.mk (hexCore (n + 1) n [])

/-- Numeric value of a hex digit character (inverse of `hexDigitChar`). -/
def hexCharVal (c : Char) : Nat :=
  if c.toNat ≥ 97 then c.toNat - 87 else c.toNat - 48

/-- Decode a big-endian list of hex digit characters. -/
def unhex (cs : List Char) : Nat :=
  cs.foldl (fun a c => a * 16 + hexCharVal c) 0

/-! ### `Context.execute` — the retry loop (part_002 lines 394–434)

The loop is specialised to an executor that fails with a non-sentinel
error (`err != nil && err != prog.ErrExecBufferTooSmall`) on its first
`k` attempts and succeeds on attempt `k`.  `executeAux` carries
`remaining = k - attempt` as structural fuel together with the source's
loop counter `attempt` (the Go variable `try`); `remaining + 1` means
the current attempt fails, `0` means it succeeds.  `batch` is
`*flagProgDir != ""`.  Each retry is preceded by a fixed
`time.Sleep(time.Second)`, so the `retries` count is also the number of
one-second sleeps. -/

inductive ExecOutcome
  | success (retries : Nat)
  | skipped (retries : Nat)
  | aborted (retries : Nat)
  deriving DecidableEq

/-- Inner loop of `Context.execute`: on a failing attempt, skip
(batch/directory mode) or abort (single-file mode) once
`try > *flagMaxRetry`, otherwise sleep one second and retry. -/
def executeAux (maxRetry : Nat) (batch : Bool) : Nat → Nat → ExecOutcome
  | 0, attempt => .success attempt
  | remaining + 1, attempt =>
    if attempt > maxRetry then
      if batch then .skipped attempt else .aborted attempt
    else
      executeAux maxRetry batch remaining (attempt + 1)

/-- One dispatch of `Context.execute` against an executor failing exactly
`k` consecutive times and then succeeding. -/
def execute (k maxRetry : Nat) (batch : Bool) : ExecOutcome :=
  executeAux maxRetry batch k 0

/-- `execFailCnt` after one dispatch: the skip branch executes
`execFailCnt += 1`, no other branch touches it. -/
def execFailCntAfter (cnt : Nat) : ExecOutcome → Nat
  | .skipped _ => cnt + 1
  | _ => cnt

/-! ### `loadPrograms` (part_002 lines 577–600) -/

/-- One input source for `loadPrograms`:
* `corpus recs` — `db.Open` succeeds; each record's `target.Deserialize`
  either yields a program (`some p`) or fails (`none`, skipped by
  `continue`);
* `logFile entries` — `db.Open` fails, `os.ReadFile` succeeds, and
  `target.ParseLog` yields `entries`;
* `unreadable` — both `db.Open` and `os.ReadFile` fail. -/
inductive Source (α : Type)
  | corpus (recs : List (Option α))
  | logFile (entries : List α)
  | unreadable

/-- `true` iff the source can be read either as a corpus or as a log. -/
def Source.isReadable {α : Type} : Source α → Bool
  | .unreadable => false
  | _ => true

/-- Programs a source contributes: corpus records that deserialize, or
the parsed log entries. -/
def Source.goodEntries {α : Type} : Source α → List α
  | .corpus recs => recs.reduceOption
  | .logFile es => es
  | .unreadable => []

/-- `loadPrograms`: iterate the sources in order, appending each source's
programs; `.error ()` models the `log.Fatalf("failed to read log file")`
call, which aborts the whole process. -/
def loadPrograms {α : Type} : List (Source α) → Except Unit (List α)
  | [] => .ok []
  | .corpus recs :: rest =>
    (loadPrograms rest).map (fun ps => recs.reduceOption ++ ps)
  | .logFile es :: rest =>
    (loadPrograms rest).map (fun ps => es ++ ps)
  | .unreadable :: _ => .error ()

/-! ### Coverage dumping (part_002 lines 491–563)

`ipc.CallInfo` is reduced to its `Cover` field (list of raw PCs);
`ipc.ProgInfo` to `Calls` and `Extra`.  `cover.RestorePC(pc, 0xffffffff)`
is an opaque parameter `restore`.  A write of file `f` with content `c`
is the artifact `(f, c)`; `osutil.WriteFile` is assumed to succeed. -/

structure CallInfo where
  cover : List Nat
  deriving DecidableEq

structure ProgInfo where
  calls : List CallInfo
  extra : CallInfo
  deriving DecidableEq

/-- `Context.dumpCallCoverage`: nothing is written when the call's
coverage is empty; otherwise one artifact holding one restored PC per
line, formatted `0x<hex>`. -/
def dumpCallCoverage (restore : Nat → Nat) (coverFile : String)
    (inf : CallInfo) : List (String × String) :=
  if inf.cover.length = 0 then []
  else [(coverFile, String.join (inf.cover.map (fun pc => hexStr (restore pc) ++ "\n")))]

/-- State of the `totalMap`/`covNum` accumulation loop: the keys already
inserted into the Go map (most recent first) and the running `covNum`. -/
def addPC (restore : Nat → Nat) (st : List String × Nat) (pc : Nat) :
    List String × Nat :=
  let newPC := hexStr (restore pc)
  if newPC ∈ st.1 then st else (newPC :: st.1, st.2 + 1)

/-- Inner double loop of `Context.dumpCoverage` accumulating `totalMap`
and `covNum` over all calls. -/
def covStats (restore : Nat → Nat) (calls : List CallInfo) :
    List String × Nat :=
  calls.foldl (fun st c => c.cover.foldl (addPC restore) st) ([], 0)

/-- `covNum` of `Context.dumpCoverage`: the number of distinct restored
PC strings over all calls of the program. -/
def covNum (restore : Nat → Nat) (info : ProgInfo) : Nat :=
  (covStats restore info.calls).2

/-- `progLength` of `Context.dumpCoverage`: one increment per entry of
`info.Calls`. -/
def progLengthOf (info : ProgInfo) : Nat := info.calls.length

/-- The set-union of the per-call program-counter sets after address
restoration: the mathematical object the deduplicated "total" coverage
is compared against. -/
def coverUnion (restore : Nat → Nat) (calls : List CallInfo) : Finset Nat :=
  calls.foldr (fun c s => (c.cover.map restore).toFinset ∪ s) ∅

/-- Per-call artifact pass of `Context.dumpCoverage` (lines 506–511):
call `i`'s coverage goes to `<coverFile>.<i>`, but only when *neither*
`-nodumpcall` *nor* `-semantic` is set. -/
def dumpPerCallAux (restore : Nat → Nat) (noDumpCall semantic : Bool)
    (coverFile : String) : Nat → List CallInfo → List (String × String)
  | _, [] => []
  | i, inf :: rest =>
    (if !noDumpCall && !semantic then
      dumpCallCoverage restore (coverFile ++ "." ++ toString i) inf
    else []) ++ dumpPerCallAux restore noDumpCall semantic coverFile (i + 1) rest

def dumpPerCall (restore : Nat → Nat) (noDumpCall semantic : Bool)
    (coverFile : String) (calls : List CallInfo) : List (String × String) :=
  dumpPerCallAux restore noDumpCall semantic coverFile 0 calls

/-- All artifacts written by one `Context.dumpCoverage` call: the
per-call files, then `<coverFile>.total` (one line per `totalMap` key),
then `<coverFile>.extra`. -/
def dumpCoverageArtifacts (restore : Nat → Nat) (noDumpCall semantic : Bool)
    (coverFile : String) (info : ProgInfo) : List (String × String) :=
  dumpPerCall restore noDumpCall semantic coverFile info.calls ++
    [(coverFile ++ ".total",
      String.join ((covStats restore info.calls).1.map (fun pc => pc ++ "\n")))] ++
    dumpCallCoverage restore (coverFile ++ ".extra") info.extra

/-! ### The coverage-record map (part_002 lines 328–345 and 513–545)

The Go map `coverRecord : map[string][3]int` is modelled as an
association list with at most one binding per key; `setCoverRecord`
replaces an existing binding or appends a new one, `getCoverRecord`
returns `(ok, values[0], values[1])`.  The mutex serialises calls, so
each call is one atomic step on the map value. -/

def RecordMap : Type := List (String × (Int × Int × Int))

/-- Lookup in the Go map. -/
def lookupRecord (m : RecordMap) (key : String) : Option (Int × Int × Int) :=
  match m with
  | [] => none
  | (k, v) :: rest => if k = key then some v else lookupRecord rest key

/-- `setCoverRecord`: `coverRecord[fileName] = [3]int{value1, value2, progLength}`. -/
def setCoverRecord (m : RecordMap) (fileName : String)
    (value1 value2 progLength : Int) : RecordMap :=
  match m with
  | [] => [(fileName, (value1, value2, progLength))]
  | (k, v) :: rest =>
    if k = fileName then (k, (value1, value2, progLength)) :: rest
    else (k, v) :: setCoverRecord rest fileName value1 value2 progLength

/-- `getCoverRecord`: `(ok, values[0], values[1])`, with zeros when the
key is absent. -/
def getCoverRecord (m : RecordMap) (fileName : String) : Bool × Int × Int :=
  match lookupRecord m fileName with
  | some v => (true, v.1, v.2.1)
  | none => (false, 0, 0)

/-- Go's `strings.TrimSuffix`. -/
def trimSuffix (s suffix : String) : String :=
  if s.endsWith suffix then s.dropRight suffix.length else s

/-- Recording branch of `Context.dumpCoverage` (lines 528–545): strip a
`.rev` suffix from the cover-file name, then write the original
(`covType = 0`) or reverse (`covType ≠ 0`) coverage count. -/
def recordCoverage (m : RecordMap) (coverFile : String)
    (covCount progLength : Int) (covType : Nat) : RecordMap :=
  let recordKey := trimSuffix coverFile ".rev"
  let g := getCoverRecord m recordKey
  if covType = 0 then
    if g.1 then m  -- "cover map error, repeated prog." — logged, map untouched
    else setCoverRecord m recordKey covCount g.2.2 progLength
  else
    if g.1 then setCoverRecord m recordKey g.2.1 covCount progLength
    else m  -- "cover map error: non-existed origin prog." — logged, map untouched

/-! ### `saveToFile` — the effectiveness report (part_002 lines 246–326)

`coverRecord` is presented to the writer as a list of
`(name, [cov0, cov1, progLength])` entries (Go map iteration order is
arbitrary; every quantity below is order-independent).  File writes are
modelled as succeeding, so the only content is the counters and rates.
The Go code computes the three rates in `float64`; here they live in `ℚ`
(`x / 0 = 0` in `ℚ` where Go produces `NaN`, so zero-denominator claims
are stated on the denominators themselves, not on quotient values). -/

structure ReportCounts where
  totalProgCnt : Nat
  totalWinCnt : Nat
  totalEqualCnt : Nat
  totalLoseCnt : Nat
  oneLineProgCnt : Nat
  oneLineWinCnt : Nat
  oneLineEqualCnt : Nat
  oneLineLoseCnt : Nat
  deriving DecidableEq

/-- All counters start at zero. -/
def ReportCounts.init : ReportCounts := ⟨0, 0, 0, 0, 0, 0, 0, 0⟩

/-- One iteration of the `for key, value := range coverRecord` counting
loop: `cov0 > cov1` is a win, `cov0 == cov1` equal, otherwise a lose;
entries with `progLength == 1` are additionally counted in the
one-line counters. -/
def countEntry (c : ReportCounts) (v : Int × Int × Int) : ReportCounts :=
  let cov0 := v.1
  let cov1 := v.2.1
  let progLength := v.2.2
  let c := { c with totalProgCnt := c.totalProgCnt + 1,
                    oneLineProgCnt := c.oneLineProgCnt + (if progLength = 1 then 1 else 0) }
  if cov0 > cov1 then
    { c with totalWinCnt := c.totalWinCnt + 1,
             oneLineWinCnt := c.oneLineWinCnt + (if progLength = 1 then 1 else 0) }
  else if cov0 = cov1 then
    { c with totalEqualCnt := c.totalEqualCnt + 1,
             oneLineEqualCnt := c.oneLineEqualCnt + (if progLength = 1 then 1 else 0) }
  else
    { c with totalLoseCnt := c.totalLoseCnt + 1,
             oneLineLoseCnt := c.oneLineLoseCnt + (if progLength = 1 then 1 else 0) }

/-- The counters after the counting loop of `saveToFile`. -/
def reportCounts (entries : List (String × (Int × Int × Int))) : ReportCounts :=
  entries.foldl (fun c e => countEntry c e.2) ReportCounts.init

/-- `OCER := float64(totalWinCnt) / float64(totalProgCnt) * 100`. -/
def OCER (c : ReportCounts) : ℚ :=
  (c.totalWinCnt : ℚ) / (c.totalProgCnt : ℚ) * 100

/-- `ECER := float64(totalWinCnt-oneLineWinCnt) / float64(totalProgCnt-oneLineWinCnt) * 100`. -/
def ECER (c : ReportCounts) : ℚ :=
  ((c.totalWinCnt : ℚ) - (c.oneLineWinCnt : ℚ)) /
    ((c.totalProgCnt : ℚ) - (c.oneLineWinCnt : ℚ)) * 100

/-- `CER := float64(totalWinCnt-oneLineWinCnt) / float64(totalProgCnt) * 100`. -/
def CER (c : ReportCounts) : ℚ :=
  ((c.totalWinCnt : ℚ) - (c.oneLineWinCnt : ℚ)) / (c.totalProgCnt : ℚ) * 100

/-- Two-decimal rendering of a rate, as in `fmt.Sprintf("%.2f%%", r)`:
the value shown is `round2 r` (Go rounds the nearest `float64`; the two
agree away from half-ulp ties, in particular on every value below). -/
def round2 (q : ℚ) : ℚ := (⌊q * 100 + 1 / 2⌋ : ℚ) / 100

/-- The report produced by `saveToFile`. -/
structure Report where
  counts : ReportCounts
  ocer : ℚ
  ecer : ℚ
  cer : ℚ
  deriving DecidableEq

/-- `saveToFile` with file writes modelled as succeeding: the function
computes the counters and the three rates unguarded (no check that
`totalProgCnt` or `totalProgCnt - oneLineWinCnt` is nonzero) and returns
`nil`, i.e. `.ok`, never an error of its own. -/
def saveToFile (entries : List (String × (Int × Int × Int))) :
    Except Unit Report :=
  let c := reportCounts entries
  .ok { counts := c, ocer := OCER c, ecer := ECER c, cer := CER c }

/-! ### `Context.getProgramIndex` — the shared cursor (lines 565–575) -/

/-- One cursor draw under `posMu`: `idx := ctx.pos; ctx.pos++; return idx`.
The progress-logging branch reads `idx` and `len(ctx.progs)` but does not
modify the cursor. -/
def getProgramIndex (pos : Nat) : Nat × Nat := (pos, pos + 1)

/-- The indices returned by `n` successive (mutex-serialised) draws
starting from cursor value `pos`. -/
def cursorDraws (pos : Nat) : Nat → List Nat
  | 0 => []
  | n + 1 => (getProgramIndex pos).1 :: cursorDraws (getProgramIndex pos).2 n

/-! ### `Context.run` — the worker loop (lines 363–382) -/

/-- One iteration of `Context.run` after the index draw: `none` models
`if ctx.repeat > 0 && idx >= len(ctx.progs)*ctx.repeat { return }`,
`some j` the dispatch of `ctx.progs[idx % len(ctx.progs)]`. -/
def workerStep (progsLen rep idx : Nat) : Option Nat :=
  if 0 < rep ∧ progsLen * rep ≤ idx then none
  else some (idx % progsLen)

/-- A worker's complete draw sequence: every draw before the last one is
dispatched, and the worker returns at its first stopping draw. -/
def WorkerTrace (progsLen rep : Nat) (ws : List Nat) : Prop :=
  ∃ ds stop, ws = ds ++ [stop] ∧
    (∀ i ∈ ds, workerStep progsLen rep i ≠ none) ∧
    workerStep progsLen rep stop = none

/-- A completed run of one pool of `P` workers (`main` lines 190–200):
all workers share one cursor, so their draws together are a permutation
of `0, 1, …, M-1`; each worker's own sequence is a `WorkerTrace`. -/
def PoolRun (progsLen rep P M : Nat) (workers : List (List Nat)) : Prop :=
  workers.length = P ∧
  workers.flatten.Perm (List.range M) ∧
  ∀ ws ∈ workers, WorkerTrace progsLen rep ws

/-- All dispatched indices of a pool: each worker dispatches every draw
except its final (stopping) one. -/
def dispatched (workers : List (List Nat)) : List Nat :=
  (workers.map List.dropLast).flatten

/-- Dispatch targets: program `idx % len(progs)` per dispatched index. -/
def dispatchTargets (progsLen : Nat) (workers : List (List Nat)) : List Nat :=
  (dispatched workers).map (· % progsLen)

/-- The stopping draw of each worker (its last drawn index). -/
def stops (workers : List (List Nat)) : List Nat :=
  workers.filterMap List.getLast?

/-! ### Dual-mode phase ordering (`main` lines 190–226) -/

/-- Timestamped abstraction of a dual-mode (`-semantic`) run of `main`:
`retTime pid` is the instant original-pool worker `pid`'s goroutine
returns (its deferred `wg.Done()`), `waitTime` the instant `wg.Wait()`
returns in `main`, `revStartTime pid` the instant `main` launches
reverse-pool worker `pid`, and `revDispatchTimes pid` the instants of
that worker's dispatches. -/
structure DualSchedule where
  P : Nat
  retTime : Nat → Nat
  waitTime : Nat
  revStartTime : Nat → Nat
  revDispatchTimes : Nat → List Nat

/-- Orderings forced by the source's structure: `sync.WaitGroup`
semantics (`wg.Wait()` returns only after all `P` deferred `wg.Done()`
calls), `main`'s program order (`revCtx` is constructed and its worker
goroutines started strictly after `wg.Wait()` returns), and goroutine
program order (a reverse worker dispatches only after it is started). -/
def DualSchedule.Valid (s : DualSchedule) : Prop :=
  (∀ pid < s.P, s.retTime pid < s.waitTime) ∧
  (∀ pid < s.P, s.waitTime < s.revStartTime pid) ∧
  (∀ pid < s.P, ∀ t ∈ s.revDispatchTimes pid, s.revStartTime pid < t)

/-! ## Supporting lemmas -/

lemma hexCharVal_hexDigitChar {d : Nat} (h : d < 16) :
    hexCharVal (hexDigitChar d) = d := by
  interval_cases d <;> decide

lemma unhex_general (cs : List Char) (a : Nat) :
    cs.foldl (fun a c => a * 16 + hexCharVal c) a
      = a * 16 ^ cs.length + unhex cs := by
  induction cs generalizing a with
  | nil => simp [unhex]
  | cons c cs ih =>
    simp only [List.foldl_cons, List.length_cons, unhex]
    rw [ih (a * 16 + hexCharVal c), ih (0 * 16 + hexCharVal c)]
    ring

lemma unhex_cons (c : Char) (cs : List Char) :
    unhex (c :: cs) = hexCharVal c * 16 ^ cs.length + unhex cs := by
  have := unhex_general cs (0 * 16 + hexCharVal c)
  simpa [unhex] using this

lemma unhex_hexCore (fuel n : Nat) (acc : List Char) (h : n < 16 ^ fuel) :
    unhex (hexCore fuel n acc) = n * 16 ^ acc.length + unhex acc := by
  induction fuel generalizing n acc with
  | zero =>
    interval_cases n
    simp [hexCore]
  | succ fuel ih =>
    by_cases hn : n < 16
    · have hmod : n % 16 = n := Nat.mod_eq_of_lt hn
      simp only [hexCore, if_pos hn, hmod]
      rw [unhex_cons, hexCharVal_hexDigitChar hn]
    · simp only [hexCore, if_neg hn]
      have hdiv : n / 16 < 16 ^ fuel := by
        rw [Nat.div_lt_iff_lt_mul (by norm_num)]
        calc n < 16 ^ (fuel + 1) := h
        _ = 16 ^ fuel * 16 := by ring
      rw [ih (n / 16) _ hdiv, unhex_cons,
        hexCharVal_hexDigitChar (Nat.mod_lt _ (by norm_num))]
      simp only [List.length_cons, pow_succ]
      have key : 16 * (n / 16) + n % 16 = n := Nat.div_add_mod n 16
      calc n / 16 * (16 ^ acc.length * 16) + (n % 16 * 16 ^ acc.length + unhex acc)
          = (16 * (n / 16) + n % 16) * 16 ^ acc.length + unhex acc := by ring
        _ = n * 16 ^ acc.length + unhex acc := by rw [key]

lemma hexCore_length_pos (fuel n : Nat) (acc : List Char) :
    acc.length ≤ (hexCore fuel n acc).length := by
  induction fuel generalizing n acc with
  | zero => simp [hexCore]
  | succ fuel ih =>
    by_cases hn : n < 16
    · simp [hexCore, if_pos hn]
    · simp only [hexCore, if_neg hn]
      calc acc.length ≤ (hexDigitChar (n % 16) :: acc).length := by simp
      _ ≤ _ := ih _ _

lemma self_lt_sixteen_pow (n : Nat) : n < 16 ^ (n + 1) := by
  calc n < 2 ^ n := Nat.lt_two_pow n
  _ ≤ 2 ^ (n + 1) := Nat.pow_le_pow_right (by norm_num) (by omega)
  _ ≤ 16 ^ (n + 1) := Nat.pow_le_pow_left (by norm_num) _

lemma unhex_hexRepr (n : Nat) : unhex (hexCore (n + 1) n []) = n := by
  have := unhex_hexCore (n + 1) n [] (self_lt_sixteen_pow n)
  simpa [unhex] using this

/-- Go's `%x` formatting is injective on nonnegative integers. -/
lemma hexStr_injective : Function.Injective hexStr := by
  intro a b hab
  have h2 : "0x".data ++ hexCore (a + 1) a [] = "0x".data ++ hexCore (b + 1) b [] := by
    have := congrArg String.data hab
    simpa [hexStr, String.data_append] using this
  have h : hexCore (a + 1) a [] = hexCore (b + 1) b [] :=
    List.append_cancel_left h2
  have ha := unhex_hexRepr a
  rw [h, unhex_hexRepr b] at ha
  exact ha.symm

lemma executeAux_eq (maxRetry : Nat) (batch : Bool) :
    ∀ remaining attempt, attempt ≤ maxRetry + 1 →
      executeAux maxRetry batch remaining attempt =
        if attempt + remaining ≤ maxRetry + 1 then .success (attempt + remaining)
        else if batch then .skipped (maxRetry + 1) else .aborted (maxRetry + 1) := by
  intro remaining
  induction remaining with
  | zero =>
    intro attempt h
    simp [executeAux, h]
  | succ remaining ih =>
    intro attempt h
    by_cases hgt : attempt > maxRetry
    · have ha : attempt = maxRetry + 1 := by omega
      subst ha
      have hc : ¬(maxRetry + 1 + (remaining + 1) ≤ maxRetry + 1) := by omega
      simp only [executeAux]
      rw [if_pos hgt, if_neg hc]
    · simp only [executeAux, if_neg hgt]
      rw [ih (attempt + 1) (by omega)]
      have hadd : attempt + 1 + remaining = attempt + (remaining + 1) := by omega
      rw [hadd]

lemma execute_eq (k maxRetry : Nat) (batch : Bool) :
    execute k maxRetry batch =
      if k ≤ maxRetry + 1 then .success k
      else if batch then .skipped (maxRetry + 1) else .aborted (maxRetry + 1) := by
  have h := executeAux_eq maxRetry batch k 0 (by omega)
  simpa [execute] using h

lemma cursorDraws_eq (pos n : Nat) :
    cursorDraws pos n = (List.range n).map (pos + ·) := by
  induction n generalizing pos with
  | zero => simp [cursorDraws]
  | succ n ih =>
    rw [cursorDraws]
    simp only [getProgramIndex]
    rw [ih (pos + 1), List.range_succ_eq_map]
    simp only [List.map_cons, Nat.add_zero, List.map_map, List.cons.injEq]
    refine ⟨trivial, List.map_congr_left fun i _ => ?_⟩
    simp only [Function.comp_apply]
    omega

lemma countEntry_one_line_win (c : ReportCounts) (v : Int × Int × Int)
    (h1 : v.2.2 = 1) (h2 : v.1 > v.2.1) :
    (countEntry c v).totalProgCnt = c.totalProgCnt + 1 ∧
    (countEntry c v).oneLineWinCnt = c.oneLineWinCnt + 1 := by
  obtain ⟨a, b, len⟩ := v
  simp only at h1 h2
  subst h1
  simp [countEntry, h2]

lemma counts_one_line_wins (entries : List (String × (Int × Int × Int)))
    (h : ∀ e ∈ entries, e.2.2.2 = 1 ∧ e.2.1 > e.2.2.1) :
    ∀ c : ReportCounts, c.totalProgCnt = c.oneLineWinCnt →
      (entries.foldl (fun c e => countEntry c e.2) c).totalProgCnt
        = (entries.foldl (fun c e => countEntry c e.2) c).oneLineWinCnt := by
  induction entries with
  | nil => intro c hc; simpa using hc
  | cons e rest ih =>
    intro c hc
    simp only [List.foldl_cons]
    have he := h e (List.mem_cons_self _ _)
    obtain ⟨ht, hw⟩ := countEntry_one_line_win c e.2 he.1 he.2
    exact ih (fun x hx => h x (List.mem_cons_of_mem _ hx)) _ (by rw [ht, hw, hc])

lemma lookupRecord_setCoverRecord (m : RecordMap) (fileName : String)
    (v1 v2 len : Int) (k : String) :
    lookupRecord (setCoverRecord m fileName v1 v2 len) k =
      if k = fileName then some (v1, v2, len) else lookupRecord m k := by
  induction m with
  | nil =>
    by_cases h : k = fileName
    · subst h
      simp [setCoverRecord, lookupRecord]
    · have h2 : ¬(fileName = k) := fun h2 => h h2.symm
      simp only [setCoverRecord, lookupRecord, if_neg h, if_neg h2]
  | cons e rest ih =>
    obtain ⟨k0, v0⟩ := e
    by_cases h0 : k0 = fileName
    · subst h0
      by_cases h : k0 = k
      · subst h
        simp [setCoverRecord, lookupRecord]
      · have h2 : ¬(k = k0) := fun h2 => h h2.symm
        simp only [setCoverRecord, lookupRecord, if_pos rfl, if_neg h, if_neg h2]
    · by_cases h : k0 = k
      · subst h
        simp only [setCoverRecord, lookupRecord, if_neg h0, if_pos rfl]
        simp
      · simp only [setCoverRecord, lookupRecord, if_neg h0, if_neg h, ih]

lemma list_toFinset_map {α β : Type} [DecidableEq α] [DecidableEq β]
    (f : α → β) (l : List α) :
    (l.map f).toFinset = l.toFinset.image f := by
  induction l with
  | nil => simp
  | cons a l ih => simp [ih]

lemma addPC_foldl (restore : Nat → Nat) :
    ∀ (pcs : List Nat) (l : List String) (n : Nat), n = l.length → l.Nodup →
      (pcs.foldl (addPC restore) (l, n)).2
          = (pcs.foldl (addPC restore) (l, n)).1.length ∧
      (pcs.foldl (addPC restore) (l, n)).1.Nodup ∧
      (pcs.foldl (addPC restore) (l, n)).1.toFinset
        = l.toFinset ∪ (pcs.map (fun pc => hexStr (restore pc))).toFinset := by
  intro pcs
  induction pcs with
  | nil =>
    intro l n hn hnd
    exact ⟨hn, hnd, by simp⟩
  | cons pc pcs ih =>
    intro l n hn hnd
    simp only [List.foldl_cons, List.map_cons, List.toFinset_cons]
    by_cases hmem : hexStr (restore pc) ∈ l
    · have hstep : addPC restore (l, n) pc = (l, n) := by
        simp [addPC, hmem]
      rw [hstep]
      obtain ⟨h1, h2, h3⟩ := ih l n hn hnd
      refine ⟨h1, h2, ?_⟩
      rw [h3, Finset.union_insert, Finset.insert_eq_self.2]
      exact Finset.mem_union_left _ (List.mem_toFinset.2 hmem)
    · have hstep : addPC restore (l, n) pc = (hexStr (restore pc) :: l, n + 1) := by
        simp [addPC, hmem]
      rw [hstep]
      obtain ⟨h1, h2, h3⟩ :=
        ih (hexStr (restore pc) :: l) (n + 1) (by simp [hn]) (by simp [hnd, hmem])
      refine ⟨h1, h2, ?_⟩
      rw [h3]
      simp only [List.toFinset_cons, Finset.insert_union, Finset.union_insert]

lemma covStats_foldl (restore : Nat → Nat) :
    ∀ (calls : List CallInfo) (l : List String) (n : Nat), n = l.length → l.Nodup →
      (calls.foldl (fun st c => c.cover.foldl (addPC restore) st) (l, n)).2
        = (calls.foldl (fun st c => c.cover.foldl (addPC restore) st) (l, n)).1.length ∧
      (calls.foldl (fun st c => c.cover.foldl (addPC restore) st) (l, n)).1.Nodup ∧
      (calls.foldl (fun st c => c.cover.foldl (addPC restore) st) (l, n)).1.toFinset
        = l.toFinset ∪ Finset.image hexStr (coverUnion restore calls) := by
  intro calls
  induction calls with
  | nil =>
    intro l n hn hnd
    exact ⟨hn, hnd, by simp [coverUnion]⟩
  | cons c calls ih =>
    intro l n hn hnd
    simp only [List.foldl_cons]
    obtain ⟨h1, h2, h3⟩ := addPC_foldl restore c.cover l n hn hnd
    obtain ⟨g1, g2, g3⟩ :=
      ih (c.cover.foldl (addPC restore) (l, n)).1
         (c.cover.foldl (addPC restore) (l, n)).2 h1 h2
    refine ⟨g1, g2, ?_⟩
    rw [g3, h3]
    have hcons : coverUnion restore (c :: calls)
        = (c.cover.map restore).toFinset ∪ coverUnion restore calls := rfl
    have hmm : (c.cover.map (fun pc => hexStr (restore pc))).toFinset
        = Finset.image hexStr (c.cover.map restore).toFinset := by
      have hcomp : (fun pc => hexStr (restore pc)) = (hexStr ∘ restore) := rfl
      rw [hcomp, ← List.map_map, list_toFinset_map]
    rw [hcons, Finset.image_union, hmm, Finset.union_assoc]

lemma dumpPerCallAux_mem (restore : Nat → Nat) (coverFile : String) :
    ∀ (calls : List CallInfo) (s i : Nat) (hi : i < calls.length),
      (calls.get ⟨i, hi⟩).cover ≠ [] →
      (coverFile ++ "." ++ toString (s + i),
        String.join ((calls.get ⟨i, hi⟩).cover.map
          (fun pc => hexStr (restore pc) ++ "\n")))
        ∈ dumpPerCallAux restore false false coverFile s calls := by
  intro calls
  induction calls with
  | nil =>
    intro s i hi
    exact absurd hi (by simp)
  | cons inf rest ih =>
    intro s i hi hne
    cases i with
    | zero =>
      apply List.mem_append_left
      have hlen : ¬inf.cover.length = 0 := by
        simpa [List.length_eq_zero] using hne
      simp only [dumpPerCallAux, dumpCallCoverage, Bool.not_false, Bool.and_self,
        if_true, if_neg hlen, Nat.add_zero]
      exact List.mem_singleton.2 rfl
    | succ j =>
      apply List.mem_append_right
      have hj : j < rest.length := by simpa using hi
      have := ih (s + 1) j hj (by simpa using hne)
      have harith : s + (j + 1) = s + 1 + j := by omega
      simpa [harith] using this

lemma workerStep_none_iff (progsLen rep idx : Nat) (hR : 0 < rep) :
    workerStep progsLen rep idx = none ↔ progsLen * rep ≤ idx := by
  by_cases h : progsLen * rep ≤ idx
  · simp [workerStep, h, hR]
  · simp [workerStep, h]

lemma flatten_perm_dispatched_stops (progsLen rep : Nat) :
    ∀ workers : List (List Nat), (∀ ws ∈ workers, WorkerTrace progsLen rep ws) →
      workers.flatten.Perm (dispatched workers ++ stops workers) := by
  intro workers
  induction workers with
  | nil =>
    intro _
    simp [dispatched, stops]
  | cons ws rest ih =>
    intro h
    obtain ⟨ds, stop, hws, _, _⟩ := h ws (List.mem_cons_self _ _)
    have hrest := ih (fun x hx => h x (List.mem_cons_of_mem _ hx))
    subst hws
    simp only [List.flatten_cons, dispatched, stops, List.map_cons,
      List.filterMap_cons, List.getLast?_concat, List.dropLast_concat,
      List.flatten_cons]
    have p1 : ((ds ++ [stop]) ++ rest.flatten).Perm
        (ds ++ ([stop] ++ ((rest.map List.dropLast).flatten
          ++ rest.filterMap List.getLast?))) := by
      rw [List.append_assoc]
      exact (hrest.append_left [stop]).append_left ds
    have p2 : (ds ++ (stop :: ((rest.map List.dropLast).flatten
          ++ rest.filterMap List.getLast?))).Perm
        (ds ++ ((rest.map List.dropLast).flatten
          ++ stop :: rest.filterMap List.getLast?)) :=
      (List.perm_middle.symm).append_left ds
    have p3 := p1.trans p2
    rw [← List.append_assoc] at p3
    exact p3

lemma dispatched_lt (progsLen rep : Nat) (hR : 0 < rep)
    (workers : List (List Nat))
    (h : ∀ ws ∈ workers, WorkerTrace progsLen rep ws) :
    ∀ i ∈ dispatched workers, i < progsLen * rep := by
  intro i hi
  obtain ⟨l, hl, hil⟩ := List.mem_flatten.1 hi
  obtain ⟨ws, hws, rfl⟩ := List.mem_map.1 hl
  obtain ⟨ds, stop, hwseq, hds, _⟩ := h ws hws
  subst hwseq
  rw [List.dropLast_concat] at hil
  have := hds i hil
  rw [Ne, workerStep_none_iff progsLen rep i hR] at this
  omega

lemma stops_ge (progsLen rep : Nat) (hR : 0 < rep)
    (workers : List (List Nat))
    (h : ∀ ws ∈ workers, WorkerTrace progsLen rep ws) :
    ∀ i ∈ stops workers, progsLen * rep ≤ i := by
  intro i hi
  obtain ⟨ws, hws, hlast⟩ := List.mem_filterMap.1 hi
  obtain ⟨ds, stop, hwseq, _, hstop⟩ := h ws hws
  subst hwseq
  rw [List.getLast?_concat] at hlast
  obtain rfl : stop = i := Option.some.inj hlast
  exact (workerStep_none_iff progsLen rep _ hR).1 hstop

lemma stops_length (progsLen rep : Nat) :
    ∀ workers : List (List Nat), (∀ ws ∈ workers, WorkerTrace progsLen rep ws) →
      (stops workers).length = workers.length := by
  intro workers
  induction workers with
  | nil => intro _; rfl
  | cons ws rest ih =>
    intro h
    obtain ⟨ds, stop, hwseq, _, _⟩ := h ws (List.mem_cons_self _ _)
    subst hwseq
    simp only [stops, List.filterMap_cons, List.getLast?_concat, List.length_cons]
    rw [← stops, ih (fun x hx => h x (List.mem_cons_of_mem _ hx))]

lemma range_filter_lt (K : Nat) :
    ∀ M, (List.range M).filter (fun i => decide (i < K)) = List.range (min M K) := by
  intro M
  induction M with
  | zero => simp
  | succ M ih =>
    rw [List.range_succ, List.filter_append, ih]
    by_cases h : M < K
    · have h1 : min M K = M := by omega
      have h2 : min (M + 1) K = M + 1 := by omega
      simp [h, h1, h2, List.range_succ]
    · have h1 : min M K = K := by omega
      have h2 : min (M + 1) K = K := by omega
      simp [h, h1, h2]

lemma count_mod_range (N R p : Nat) (hp : p < N) :
    ((List.range (N * R)).map (· % N)).count p = R := by
  induction R with
  | zero => simp
  | succ R ih =>
    have hNR : N * (R + 1) = N * R + N := by ring
    rw [hNR, List.range_add, List.map_append, List.count_append, ih]
    have hmap : (List.map (fun x => N * R + x) (List.range N)).map (· % N)
        = List.range N := by
      rw [List.map_map]
      have : ∀ x ∈ List.range N, (N * R + x) % N = x := by
        intro x hx
        have hxN : x < N := List.mem_range.1 hx
        rw [Nat.add_comm, Nat.add_mul_mod_self_left]
        exact Nat.mod_eq_of_lt hxN
      calc List.map ((· % N) ∘ fun x => N * R + x) (List.range N)
          = List.map (fun x => x) (List.range N) :=
            List.map_congr_left (fun x hx => this x hx)
        _ = List.range N := List.map_id _
    rw [hmap, List.count_eq_one_of_mem (List.nodup_range N) (List.mem_range.2 hp)]

/-! ## Claim theorems -/

/-- C1, counterexample: with the default `maxRetry = 10`, an executor
failing `k = 11 > 10` consecutive times and then succeeding does *not*
make the batch-mode dispatch skip the program — the `try > *flagMaxRetry`
guard tolerates `maxRetry + 1` failures, so the dispatch ends in success
after 11 retries and the global failure counter stays untouched. -/
theorem execute_over_maxRetry_counterexample :
    11 > 10 ∧ execute 11 10 true = ExecOutcome.success 11 ∧
      execFailCntAfter 0 (execute 11 10 true) = 0 := by decide

/-- C1 (amended): a dispatch whose executor fails exactly `k` consecutive
non-sentinel times and then succeeds sleeps one second between attempts
and ends in success with exactly `k` retries when `k ≤ maxRetry + 1`;
when `k > maxRetry + 1` it performs `maxRetry + 1` retries and then
skips the program, incrementing the global failure counter, in
batch/directory mode, or aborts the process in single-file mode. -/
theorem execute_retry_spec (k maxRetry cnt : Nat) (batch : Bool) :
    execute k maxRetry batch =
      (if k ≤ maxRetry + 1 then ExecOutcome.success k
       else if batch then ExecOutcome.skipped (maxRetry + 1)
       else ExecOutcome.aborted (maxRetry + 1)) ∧
    execFailCntAfter cnt (execute k maxRetry batch) =
      (if maxRetry + 1 < k ∧ batch then cnt + 1 else cnt) := by
  refine ⟨execute_eq k maxRetry batch, ?_⟩
  rw [execute_eq k maxRetry batch]
  by_cases hk : k ≤ maxRetry + 1
  · rw [if_pos hk, if_neg (fun h => absurd h.1 (by omega))]
    rfl
  · rw [if_neg hk]
    cases batch with
    | true =>
      rw [if_pos (show maxRetry + 1 < k ∧ true = true from ⟨by omega, rfl⟩)]
      rfl
    | false =>
      rw [if_neg (show ¬(maxRetry + 1 < k ∧ false = true) from
        fun h => absurd h.2 (by decide))]
      rfl

/-- C2, counterexample: a source list holding one perfectly readable log
source and one unreadable source still aborts the whole process —
`loadPrograms` calls `log.Fatalf` for *every* source that fails to open
both as a corpus and as a file, not only when no source is readable. -/
theorem loadPrograms_readable_counterexample :
    (Source.logFile [1] : Source Nat).isReadable = true ∧
    loadPrograms [Source.logFile [1], Source.unreadable] = .error () :=
  ⟨rfl, rfl⟩

/-- C2 (amended): entries that fail to deserialize are skipped without
aborting loading, and a source that fails to open as a corpus is read as
a log; but loading terminates the process whenever *any* source is
unreadable (fails both as a corpus and as a file), and returns normally
exactly when every source is readable. -/
theorem loadPrograms_spec {α : Type} (srcs : List (Source α)) :
    loadPrograms srcs =
      if srcs.all Source.isReadable then
        .ok ((srcs.map Source.goodEntries).flatten)
      else .error () := by
  induction srcs with
  | nil => rfl
  | cons s rest ih =>
    cases s with
    | corpus recs =>
      simp only [loadPrograms, ih, List.all_cons, Source.isReadable, Bool.true_and,
        List.map_cons, List.flatten_cons, Source.goodEntries]
      split <;> rfl
    | logFile es =>
      simp only [loadPrograms, ih, List.all_cons, Source.isReadable, Bool.true_and,
        List.map_cons, List.flatten_cons, Source.goodEntries]
      split <;> rfl
    | unreadable =>
      simp [loadPrograms, Source.isReadable]

/-- C7: the shared cursor never yields the same value twice — the values
returned by `n` successive `getProgramIndex` calls in a pool, in any
interleaving (the read-and-increment is serialised by `posMu`), are
exactly `0, 1, …, n-1` in order: strictly increasing, no gaps, no
repeats. -/
theorem getProgramIndex_unique (n : Nat) :
    cursorDraws 0 n = List.range n ∧ (cursorDraws 0 n).Pairwise (· < ·) := by
  have h : cursorDraws 0 n = List.range n := by
    simp [cursorDraws_eq]
  exact ⟨h, h ▸ List.pairwise_lt_range n⟩

/-- C9: in dual-mode (`-semantic`) runs the reverse pool is a strictly
later phase: in every schedule consistent with the structure of `main`
(wait-group completion before the reverse context is even constructed),
every original-pool worker's return precedes every reverse-pool
dispatch. -/
theorem dual_phase_ordering (s : DualSchedule) (hs : s.Valid)
    (p q : Nat) (hp : p < s.P) (hq : q < s.P)
    (t : Nat) (ht : t ∈ s.revDispatchTimes q) :
    s.retTime p < s.waitTime ∧ s.retTime p < t := by
  obtain ⟨h1, h2, h3⟩ := hs
  refine ⟨h1 p hp, ?_⟩
  exact lt_trans (h1 p hp) (lt_trans (h2 q hq) (h3 q hq t ht))

/-- C9, witness: a concrete valid dual-mode schedule with two workers. -/
theorem dual_phase_ordering_witness :
    (⟨2, fun pid => pid, 5, fun pid => 6 + pid, fun pid => [10 + pid]⟩ :
        DualSchedule).retTime 0 < 5 ∧
    (⟨2, fun pid => pid, 5, fun pid => 6 + pid, fun pid => [10 + pid]⟩ :
        DualSchedule).retTime 0 < 10 + 1 :=
  dual_phase_ordering
    ⟨2, fun pid => pid, 5, fun pid => 6 + pid, fun pid => [10 + pid]⟩
    ⟨by decide, by decide, by decide⟩
    0 1 (by decide) (by decide) (10 + 1) (by simp)

/-- C4: classification in `saveToFile` — each entry counts as Win when
`covOriginal > covReverse`, Equal when they coincide, Lose otherwise,
with length-1 entries tracked separately; and on the record map
{Win(len=3), Win(len=1), Equal(len=2), Lose(len=4)} the writer computes
total=4, wins=2, oneLineWins=1 and rates OCER=50.00%, ECER=33.33%,
CER=25.00% (two-decimal rendering of 50, 100/3 and 25). -/
theorem saveToFile_classification (c : ReportCounts) (v : Int × Int × Int) :
    ((countEntry c v).totalProgCnt = c.totalProgCnt + 1 ∧
     (countEntry c v).totalWinCnt = c.totalWinCnt + (if v.1 > v.2.1 then 1 else 0) ∧
     (countEntry c v).totalEqualCnt = c.totalEqualCnt + (if v.1 = v.2.1 then 1 else 0) ∧
     (countEntry c v).totalLoseCnt = c.totalLoseCnt + (if v.1 < v.2.1 then 1 else 0) ∧
     (countEntry c v).oneLineProgCnt = c.oneLineProgCnt + (if v.2.2 = 1 then 1 else 0) ∧
     (countEntry c v).oneLineWinCnt =
       c.oneLineWinCnt + (if v.2.2 = 1 ∧ v.1 > v.2.1 then 1 else 0)) ∧
    ((reportCounts
        [("w3", (10, 7, 3)), ("w1", (5, 4, 1)),
         ("e2", (6, 6, 2)), ("l4", (3, 9, 4))]).totalProgCnt = 4 ∧
     (reportCounts
        [("w3", (10, 7, 3)), ("w1", (5, 4, 1)),
         ("e2", (6, 6, 2)), ("l4", (3, 9, 4))]).totalWinCnt = 2 ∧
     (reportCounts
        [("w3", (10, 7, 3)), ("w1", (5, 4, 1)),
         ("e2", (6, 6, 2)), ("l4", (3, 9, 4))]).oneLineWinCnt = 1 ∧
     round2 (OCER (reportCounts
        [("w3", (10, 7, 3)), ("w1", (5, 4, 1)),
         ("e2", (6, 6, 2)), ("l4", (3, 9, 4))])) = 50 ∧
     round2 (ECER (reportCounts
        [("w3", (10, 7, 3)), ("w1", (5, 4, 1)),
         ("e2", (6, 6, 2)), ("l4", (3, 9, 4))])) = 3333 / 100 ∧
     round2 (CER (reportCounts
        [("w3", (10, 7, 3)), ("w1", (5, 4, 1)),
         ("e2", (6, 6, 2)), ("l4", (3, 9, 4))])) = 25) := by
  constructor
  · obtain ⟨cov0, v2⟩ := v
    obtain ⟨cov1, len⟩ := v2
    rcases lt_trichotomy cov0 cov1 with h | h | h
    · have h1 : ¬cov0 > cov1 := by omega
      have h2 : ¬cov0 = cov1 := by omega
      by_cases hl : len = 1 <;> simp [countEntry, h, h1, h2, hl]
    · subst h
      have h1 : ¬cov0 > cov0 := by omega
      by_cases hl : len = 1 <;> simp [countEntry, h1, hl]
    · have h2 : ¬cov0 = cov1 := by omega
      have h3 : ¬cov0 < cov1 := by omega
      by_cases hl : len = 1 <;> simp [countEntry, h, h2, h3, hl]
  · refine ⟨by decide, by decide, by decide, ?_, ?_, ?_⟩ <;>
      norm_num [reportCounts, countEntry, ReportCounts.init, OCER, ECER, CER, round2]

/-- C5, counterexample: a reverse-mode write to an existing entry does
*not* change only `covReverse` — `setCoverRecord` is called with the
current run's `progLength`, so the stored length is overwritten too
(here 3 becomes 9). -/
theorem recordCoverage_reverse_counterexample :
    recordCoverage [("k", (5, 0, 3))] "k" 7 9 1 = [("k", (5, 7, 9))] ∧
    lookupRecord (recordCoverage [("k", (5, 0, 3))] "k" 7 9 1) "k" ≠ some (5, 7, 3) := by
  constructor
  · rfl
  · intro h
    simp [recordCoverage, trimSuffix, getCoverRecord, lookupRecord, setCoverRecord] at h

/-- C5 (amended): per key (the cover-file name with a `.rev` suffix
stripped), an original-mode write creates the entry
`(covCount, 0, progLength)` when none exists and leaves the map
completely unchanged (anomaly logged) when one exists; a reverse-mode
write on an existing entry `(a, b, c)` stores `(a, covCount, progLength)`
— it keeps `covOriginal`, sets `covReverse`, and *overwrites the stored
length with the current run's program length* — and leaves the map
unchanged (anomaly logged) when no entry exists.  The final two
conjuncts pin down `setCoverRecord`: it rebinds exactly the written key
and no other. -/
theorem recordCoverage_spec (m : RecordMap) (coverFile : String)
    (covCount progLength : Int) (v1 v2 len : Int) (key k2 : String) :
    (recordCoverage m coverFile covCount progLength 0 =
      (match lookupRecord m (trimSuffix coverFile ".rev") with
       | none => setCoverRecord m (trimSuffix coverFile ".rev") covCount 0 progLength
       | some _ => m)) ∧
    (recordCoverage m coverFile covCount progLength 1 =
      (match lookupRecord m (trimSuffix coverFile ".rev") with
       | some v => setCoverRecord m (trimSuffix coverFile ".rev") v.1 covCount progLength
       | none => m)) ∧
    lookupRecord (setCoverRecord m key v1 v2 len) key = some (v1, v2, len) ∧
    lookupRecord (setCoverRecord m key v1 v2 len) k2 =
      (if k2 = key then some (v1, v2, len) else lookupRecord m k2) := by
  refine ⟨?_, ?_, ?_, lookupRecord_setCoverRecord m key v1 v2 len k2⟩
  · cases h : lookupRecord m (trimSuffix coverFile ".rev") <;>
      simp [recordCoverage, getCoverRecord, h]
  · cases h : lookupRecord m (trimSuffix coverFile ".rev") <;>
      simp [recordCoverage, getCoverRecord, h]
  · rw [lookupRecord_setCoverRecord m key v1 v2 len key, if_pos rfl]

/-- C10: the rate computations of `saveToFile` are unguarded divisions:
on an empty record map the total is 0, so the OCER, ECER and CER
denominators are all 0 (Go divides anyway, producing NaN), and when
every recorded entry is a one-line win the ECER denominator
`total - oneLineWins` is 0 — yet in every case the report is written and
the writer returns success, never an error of its own. -/
theorem saveToFile_unguarded_divisions
    (entries : List (String × (Int × Int × Int)))
    (hwin : ∀ e ∈ entries, e.2.2.2 = 1 ∧ e.2.1 > e.2.2.1) :
    ((reportCounts []).totalProgCnt = 0 ∧
     ((reportCounts []).totalProgCnt : ℚ) = 0 ∧
     ((reportCounts []).totalProgCnt : ℚ) - ((reportCounts []).oneLineWinCnt : ℚ) = 0 ∧
     saveToFile [] = .ok ⟨reportCounts [], OCER (reportCounts []),
       ECER (reportCounts []), CER (reportCounts [])⟩) ∧
    (((reportCounts entries).totalProgCnt : ℚ)
        - ((reportCounts entries).oneLineWinCnt : ℚ) = 0 ∧
     saveToFile entries = .ok ⟨reportCounts entries, OCER (reportCounts entries),
       ECER (reportCounts entries), CER (reportCounts entries)⟩) := by
  refine ⟨⟨rfl, by norm_num [reportCounts, ReportCounts.init],
      by norm_num [reportCounts, ReportCounts.init], rfl⟩, ?_, rfl⟩
  have h := counts_one_line_wins entries hwin ReportCounts.init rfl
  rw [reportCounts, h]
  exact sub_self _

/-- C10, witness: a single one-line-win entry. -/
theorem saveToFile_unguarded_divisions_witness :
    ((reportCounts []).totalProgCnt = 0 ∧
     ((reportCounts []).totalProgCnt : ℚ) = 0 ∧
     ((reportCounts []).totalProgCnt : ℚ) - ((reportCounts []).oneLineWinCnt : ℚ) = 0 ∧
     saveToFile [] = .ok ⟨reportCounts [], OCER (reportCounts []),
       ECER (reportCounts []), CER (reportCounts [])⟩) ∧
    (((reportCounts [("a", (3, 1, 1))]).totalProgCnt : ℚ)
        - ((reportCounts [("a", (3, 1, 1))]).oneLineWinCnt : ℚ) = 0 ∧
     saveToFile [("a", (3, 1, 1))] = .ok ⟨reportCounts [("a", (3, 1, 1))],
       OCER (reportCounts [("a", (3, 1, 1))]),
       ECER (reportCounts [("a", (3, 1, 1))]),
       CER (reportCounts [("a", (3, 1, 1))])⟩) :=
  saveToFile_unguarded_divisions [("a", (3, 1, 1))] (by decide)

/-- C6: coverage dedup — for every executed program, the coverage count
`covNum` that `Context.dumpCoverage` records (and whose PC set it writes
to the `.total` artifact, one line per `totalMap` key) equals the
cardinality of the set-union of the per-call restored-PC sets: a PC
appearing in several calls is counted exactly once, never summed. -/
theorem covNum_eq_card_union (restore : Nat → Nat) (info : ProgInfo) :
    covNum restore info = (coverUnion restore info.calls).card ∧
    (covStats restore info.calls).1.length = (coverUnion restore info.calls).card := by
  obtain ⟨h1, h2, h3⟩ :=
    covStats_foldl restore info.calls [] 0 rfl List.nodup_nil
  simp only [List.toFinset_nil, Finset.empty_union] at h3
  have hcard :
      (List.foldl (fun st c => c.cover.foldl (addPC restore) st) ([], 0)
        info.calls).1.length = (coverUnion restore info.calls).card := by
    rw [← List.toFinset_card_of_nodup h2, h3,
      Finset.card_image_of_injective _ hexStr_injective]
  exact ⟨h1.trans hcard, hcard⟩

/-- C3, counterexample: with a cover file configured and `-nodumpcall`
*not* set, a `-semantic` run (a call with non-empty coverage) still
writes no per-call artifact — the guard in `dumpCoverage` is
`!*flagNoDumpCall && !*flagSemantic`, so `-semantic` alone suppresses
per-call dumping.  The only artifact written here is `cov.total`. -/
theorem dumpCoverage_semantic_counterexample :
    (⟨[5]⟩ : CallInfo).cover ≠ [] ∧
    (dumpCoverageArtifacts id false true "cov" ⟨[⟨[5]⟩], ⟨[]⟩⟩).map Prod.fst
      = ["cov.total"] := by
  exact ⟨by decide, rfl⟩

/-- C3 (amended): whenever a cover file is configured and per-call
dumping is not suppressed — which requires *both* `-nodumpcall` *and*
`-semantic` to be unset — every call with non-empty coverage gets a
per-call artifact `<coverfile>.<callIndex>` holding one restored PC per
line, formatted `0x<hex>`. -/
theorem dumpCoverage_per_call_artifact (restore : Nat → Nat)
    (coverFile : String) (info : ProgInfo) (i : Nat)
    (hi : i < info.calls.length)
    (hne : (info.calls.get ⟨i, hi⟩).cover ≠ []) :
    (coverFile ++ "." ++ toString i,
      String.join ((info.calls.get ⟨i, hi⟩).cover.map
        (fun pc => hexStr (restore pc) ++ "\n")))
      ∈ dumpCoverageArtifacts restore false false coverFile info := by
  apply List.mem_append_left
  apply List.mem_append_left
  have h := dumpPerCallAux_mem restore coverFile info.calls 0 i hi hne
  simpa [dumpPerCall] using h

/-- C3, witness: one program with a single call covering raw PC 5,
identity restoration. -/
theorem dumpCoverage_per_call_artifact_witness :
    ("cov" ++ "." ++ toString 0,
      String.join (((⟨[⟨[5]⟩], ⟨[]⟩⟩ : ProgInfo).calls.get ⟨0, by decide⟩).cover.map
        (fun pc => hexStr (id pc) ++ "\n")))
      ∈ dumpCoverageArtifacts id false false "cov" ⟨[⟨[5]⟩], ⟨[]⟩⟩ :=
  dumpCoverage_per_call_artifact id "cov" ⟨[⟨[5]⟩], ⟨[]⟩⟩ 0 (by decide) (by decide)

/-- C8: scheduling — a worker stops (without dispatching) exactly when
its drawn index `i` satisfies `repeat > 0` and `i ≥ |progs| × repeat`,
and otherwise dispatches program `i mod |progs|`; consequently a
completed pool of `P` workers over `N` programs with repeat `R > 0`
performs exactly `N × R` dispatches — the dispatched indices are a
permutation of `0, …, N×R - 1` — and each program `p < N` is dispatched
exactly `R` times.  With 4 programs, 2 workers and repeat 2 this gives
8 dispatches, each program dispatched twice (see the witness). -/
theorem pool_dispatch_fairness (progsLen rep P M : Nat)
    (workers : List (List Nat)) (hP : 0 < P) (hR : 0 < rep)
    (hrun : PoolRun progsLen rep P M workers) :
    (∀ idx, workerStep progsLen rep idx =
      if 0 < rep ∧ progsLen * rep ≤ idx then none else some (idx % progsLen)) ∧
    (dispatched workers).length = progsLen * rep ∧
    (dispatched workers).Perm (List.range (progsLen * rep)) ∧
    ∀ p < progsLen, (dispatchTargets progsLen workers).count p = rep := by
  obtain ⟨hlen, hperm, htr⟩ := hrun
  have hjoin := flatten_perm_dispatched_stops progsLen rep workers htr
  have hDS : ((dispatched workers) ++ (stops workers)).Perm (List.range M) :=
    hjoin.symm.trans hperm
  have hDlt := dispatched_lt progsLen rep hR workers htr
  have hSge := stops_ge progsLen rep hR workers htr
  have hfil : ((dispatched workers) ++ (stops workers)).filter
      (fun i => decide (i < progsLen * rep)) = dispatched workers := by
    rw [List.filter_append, List.filter_eq_self.2 (fun a ha => by
        simpa using hDlt a ha),
      List.filter_eq_nil_iff.2 (fun a ha => by
        simpa using not_lt.2 (hSge a ha)),
      List.append_nil]
  have hDperm : (dispatched workers).Perm
      (List.range (min M (progsLen * rep))) := by
    have hf := hDS.filter (fun i => decide (i < progsLen * rep))
    rw [hfil, range_filter_lt] at hf
    exact hf
  have hlenDS : (dispatched workers).length + (stops workers).length = M := by
    have hl := hDS.length_eq
    simpa using hl
  have hSlen : (stops workers).length = P := by
    rw [stops_length progsLen rep workers htr, hlen]
  have hDlen : (dispatched workers).length = min M (progsLen * rep) := by
    rw [hDperm.length_eq, List.length_range]
  have hM : M = progsLen * rep + P := by omega
  have hmin : min M (progsLen * rep) = progsLen * rep := by omega
  rw [hmin] at hDperm hDlen
  refine ⟨fun idx => rfl, hDlen, hDperm, fun p hp => ?_⟩
  have hcnt := (hDperm.map (· % progsLen)).count_eq p
  rw [dispatchTargets, hcnt, count_mod_range progsLen rep p hp]

/-- C8, witness: 4 programs, 2 workers, repeat 2, a concrete completed
pool run (workers alternate cursor draws 0–9): 8 dispatches, each of the
4 programs dispatched exactly twice. -/
theorem pool_dispatch_fairness_witness :
    (∀ idx, workerStep 4 2 idx =
      if 0 < 2 ∧ 4 * 2 ≤ idx then none else some (idx % 4)) ∧
    (dispatched [[0, 2, 4, 6, 8], [1, 3, 5, 7, 9]]).length = 4 * 2 ∧
    (dispatched [[0, 2, 4, 6, 8], [1, 3, 5, 7, 9]]).Perm (List.range (4 * 2)) ∧
    ∀ p < 4, (dispatchTargets 4 [[0, 2, 4, 6, 8], [1, 3, 5, 7, 9]]).count p = 2 := by
  apply pool_dispatch_fairness 4 2 2 10 [[0, 2, 4, 6, 8], [1, 3, 5, 7, 9]]
    (by norm_num) (by norm_num)
  refine ⟨rfl, by decide, ?_⟩
  intro ws hws
  simp only [List.mem_cons, List.not_mem_nil, or_false] at hws
  rcases hws with h | h
  · subst h
    exact ⟨[0, 2, 4, 6], 8, rfl, by decide, by decide⟩
  · subst h
    exact ⟨[1, 3, 5, 7], 9, rfl, by decide, by decide⟩

end Execprog
